import Mathlib

/-!
Shallow embedding of three SuperAGI FastAPI controllers
(`superagi/controllers/tool_config.py`, `superagi/controllers/analytics.py`,
`superagi/controllers/vector_db_index.py`) and proofs about the claims on
their behaviour.

The database session is modelled as an explicit `Store` value threaded
through the handlers; SQLAlchemy queries become list lookups over the
store (the session autoflushes pending adds before a query, so a single
row list models both committed rows and pending session state inside one
request).  HTTP responses and Python exceptions are modelled explicitly.
-/

/-- Database row for a toolkit (`superagi.models.tool_kit.ToolKit`). -/
structure ToolKit where
  id : Nat
  name : String
  organisation_id : Nat
deriving Repr, DecidableEq

/-- Database row for a tool configuration
(`superagi.models.tool_config.ToolConfig`): one key/value pair scoped to a
toolkit.  `value` is optional because the handlers may write Python `None`
into it (`config.get("value")`). -/
structure ToolConfig where
  tool_kit_id : Nat
  key : String
  value : Option String
deriving Repr, DecidableEq

/-- The organisation resolved from the request credentials. -/
structure Organisation where
  id : Nat
deriving Repr, DecidableEq

/-- The persistent store visible to the tool-config handlers. -/
structure Store where
  toolkits : List ToolKit
  tool_configs : List ToolConfig
deriving Repr, DecidableEq

/-- Python exceptions raised by the embedded handlers. -/
inductive PyExc where
  | httpException (status : Nat) (detail : String)
  | nameError (n : String)
  | attributeError (attr : String)
deriving Repr, DecidableEq

/-- Python `str(e)` for the exceptions above (Starlette renders an
`HTTPException` as `"status: detail"`). -/
def strOfExc : PyExc → String
  | .httpException status detail => toString status ++ ": " ++ detail
  | .nameError n => "name " ++ n ++ " is not defined"
  | .attributeError a => "object has no attribute " ++ a

/-- Outcome of one request: a successful JSON response, an HTTPException
turned into an HTTP error response, or an exception that escapes the
handler unhandled. -/
inductive Outcome (α : Type) where
  | ok (status : Nat) (body : α)
  | httpError (status : Nat) (detail : String)
  | raised (e : PyExc)
deriving Repr, DecidableEq

/-- Source line 76: `db.session.query(ToolKit).filter_by(name=tool_kit_name).first()`. -/
def find_toolkit_by_name (s : Store) (tool_kit_name : String) : Option ToolKit :=
  s.toolkits.find? (fun t => t.name == tool_kit_name)

/-- Modelled from the spec: `ToolKit.get_tool_kit_from_name` (source line 37)
lives in `superagi/models/tool_kit.py`, which is not among the provided
sources; per the spec it resolves the toolkit by name and yields nothing
when absent, exactly like the inline `filter_by(name=...).first()` query of
the sibling handler. -/
def get_tool_kit_from_name (s : Store) (tool_kit_name : String) : Option ToolKit :=
  s.toolkits.find? (fun t => t.name == tool_kit_name)

/-- One element of the JSON body of `POST /add/{tool_kit_name}`: a dict on
which the handler calls `.get("key")` and `.get("value")`, both of which
may be absent (`none`). -/
structure UpdateEntry where
  key : Option String
  value : Option String
deriving Repr, DecidableEq

/-- One element of the `tool_configs` argument of
`POST /create-or-update/{tool_kit_name}`: the handler reads the attributes
`.key` and `.value`; `malformed` models an element lacking them, on which
the attribute access raises `AttributeError`. -/
inductive UpsertEntry where
  | entry (key : String) (value : Option String)
  | malformed
deriving Repr, DecidableEq

/-- Row-match test used by the handlers' filtered queries:
`filter_by(tool_kit_id=..., key=...)`. -/
def matchesRow (r : ToolConfig) (tkid : Nat) (k : String) : Bool :=
  r.tool_kit_id == tkid && r.key == k

/-- Source lines 46-50: query the first config matching (tool_kit_id, key)
and overwrite its value in place; when no row matches, do nothing. -/
def updFirst : List ToolConfig → Nat → String → Option String → List ToolConfig
  | [], _, _, _ => []
  | r :: rs, tkid, k, v =>
    if matchesRow r tkid k then { r with value := v } :: rs
    else r :: updFirst rs tkid k v

/-- Source lines 85-96: query the first config matching (tool_kit_id, key);
update it in place when found, otherwise add a new row (the session
appends it, so a later query of the same request sees it). -/
def upsertRow : List ToolConfig → Nat → String → Option String → List ToolConfig
  | [], tkid, k, v => [⟨tkid, k, v⟩]
  | r :: rs, tkid, k, v =>
    if matchesRow r tkid k then { r with value := v } :: rs
    else r :: upsertRow rs tkid k v

/-- Source lines 81-96: the loop of `create_or_update_tool_config` over the
`tool_configs` body.  Reading `.key` of a malformed element raises
`AttributeError`, aborting the loop before the commit. -/
def upsertLoop : List ToolConfig → Nat → List UpsertEntry → Except PyExc (List ToolConfig)
  | rows, _, [] => .ok rows
  | rows, tkid, .entry k v :: es => upsertLoop (upsertRow rows tkid k v) tkid es
  | _, _, .malformed :: _ => .error (.attributeError "key")

/-- Body of the `try` block of `update_tool_config` (source lines 35-52):
resolve the toolkit (raising HTTPException 404 when absent), then for each
entry with a non-None `"key"` update the first matching config, committing
inside the loop, and answer the fixed success message. -/
def update_tool_config_inner (s : Store) (tool_kit_name : String)
    (configs : List UpdateEntry) : Store × Except PyExc String :=
  match get_tool_kit_from_name s tool_kit_name with
  | none => (s, .error (.httpException 404 "Tool kit not found"))
  | some tool_kit =>
    let rows := configs.foldl (fun rows config =>
      match config.key with
      | none => rows
      | some k => updFirst rows tool_kit.id k config.value) s.tool_configs
    ({ s with tool_configs := rows }, .ok "Tool configs updated successfully")

/-- Handler of `POST /add/{tool_kit_name}` (source lines 15-56).  The
`except Exception` clause catches every exception raised inside the `try`
block, including the HTTPException 404 raised at line 39, and re-raises it
as HTTPException 500 with `str(e)` as detail. -/
def update_tool_config (s : Store) (tool_kit_name : String)
    (configs : List UpdateEntry) : Store × Outcome String :=
  match update_tool_config_inner s tool_kit_name configs with
  | (s', .ok msg) => (s', .ok 201 msg)
  | (s', .error e) => (s', .httpError 500 (strOfExc e))

/-- Handler of `POST /create-or-update/{tool_kit_name}` (source lines
59-101): resolve the toolkit (404 when absent), run the upsert loop over
the body, and commit once after the loop (line 98).  When the loop raises,
the commit is never reached and the uncommitted session changes are
discarded, so the store is returned unchanged and the exception escapes
the handler (there is no try/except here). -/
def create_or_update_tool_config (s : Store) (tool_kit_name : String)
    (tool_configs : List UpsertEntry) : Store × Outcome ToolKit :=
  match find_toolkit_by_name s tool_kit_name with
  | none => (s, .httpError 404 "ToolKit not found")
  | some toolkit =>
    match upsertLoop s.tool_configs toolkit.id tool_configs with
    | .error e => (s, .raised e)
    | .ok rows => ({ s with tool_configs := rows }, .ok 201 toolkit)

/-- Value held by the local variable `toolkit` at source line 151: the
source omits `.first()`, so the variable holds the unexecuted Query
object, not a ToolKit row. -/
inductive ToolkitVar where
  | row (t : ToolKit)
  | queryObj (name : String)
deriving Repr, DecidableEq

/-- Python `==` between the `toolkit` variable and a ToolKit row, as used
by the membership test `toolkit not in user_tool_kits` (source line 152):
a Query object compares by identity and never equals a row. -/
def toolkitVarEqRow : ToolkitVar → ToolKit → Bool
  | .queryObj _, _ => false
  | .row t, t' => t == t'

/-- Handler of `GET /get/toolkit/{tool_kit_name}/key/{key}` (source lines
131-163): collect the toolkits of the caller's organisation, bind
`toolkit` to the query `filter_by(name=toolkit)` WITHOUT `.first()`
(line 151), and answer 403 when that value is not a member of the row
list.  Past the check the code would read `.id` off the Query object,
which has no such attribute. -/
def get_tool_config (s : Store) (organisation : Organisation)
    (toolkit : String) (key : String) : Outcome ToolConfig :=
  let user_tool_kits := s.toolkits.filter (fun t => t.organisation_id == organisation.id)
  let toolkitVar : ToolkitVar := .queryObj toolkit
  if !(user_tool_kits.any (fun t => toolkitVarEqRow toolkitVar t)) then
    .httpError 403 "Unauthorized"
  else
    .raised (.attributeError "id")

/-- Handler of `GET /metrics` (analytics source lines 9-21): delegate to
the helper; the bare `except` clause converts any failure to
HTTPException 500 with the constant detail.  The helper call is passed in
as its already-computed result. -/
def get_metrics {α : Type} (helperResult : Except PyExc α) : Outcome α :=
  match helperResult with
  | .ok v => .ok 200 v
  | .error _ => .httpError 500 "Internal Server Error"

/-- Handler of `GET /agents/all` (analytics source lines 24-29): same
shape as `get_metrics`. -/
def get_agents {α : Type} (helperResult : Except PyExc α) : Outcome α :=
  match helperResult with
  | .ok v => .ok 200 v
  | .error _ => .httpError 500 "Internal Server Error"

/-- Handler of `GET /agents/{agent_id}` (analytics source lines 32-37):
the `except` clause is bare (no `as e` binding), yet its body evaluates
`str(e)`; the name `e` is unbound there, so the error path itself raises
`NameError`, which escapes the handler unhandled. -/
def get_agent_runs {α : Type} (agent_id : Nat) (helperResult : Except PyExc α) : Outcome α :=
  match helperResult with
  | .ok v => .ok 200 v
  | .error _ => .raised (.nameError "e")

/-- Handler of `GET /runs/active` (analytics source lines 40-45):
`except Exception as e` converts any failure to HTTPException 500 with
`str(e)` as detail. -/
def get_active_runs {α : Type} (helperResult : Except PyExc α) : Outcome α :=
  match helperResult with
  | .ok v => .ok 200 v
  | .error e => .httpError 500 (strOfExc e)

/-- Handler of `GET /tools/used` (analytics source lines 48-53): same
shape as `get_active_runs`. -/
def get_tools_used {α : Type} (helperResult : Except PyExc α) : Outcome α :=
  match helperResult with
  | .ok v => .ok 200 v
  | .error e => .httpError 500 (strOfExc e)

/-- Database row for a vector database (`superagi.models.vector_db.Vectordb`). -/
structure Vectordb where
  id : Nat
  organisation_id : Nat
  db_type : String
deriving Repr, DecidableEq

/-- Database row for an index collection
(`superagi.models.vector_db_index_collection.VectorIndexCollection`). -/
structure VectorIndex where
  id : Nat
  name : String
deriving Repr, DecidableEq

/-- The `data` dict built per index by `get_marketplace_valid_indices`
(vector_db_index source lines 21-28).  `is_valid_state := none` models the
key being absent from the dict. -/
structure IndexSummary where
  id : Nat
  name : String
  is_valid_dimension : Bool
  is_valid_state : Option Bool
deriving Repr, DecidableEq

/-- The response dict of `GET /get/marketplace/valid_indices/{knowledge_id}`
(vector_db_index source lines 33-36). -/
structure VectorIndicesData where
  pinecone : List IndexSummary
  qdrant : List IndexSummary
deriving Repr, DecidableEq

/-- Vector_db_index source lines 21-28: build the summary dict for one
index; `is_valid_state` is written only when the stored state differs
from "CUSTOM". -/
def build_index_data (check_valid_dimension : Nat → Nat → Bool)
    (get_index_state : Nat → String) (knowledge_id : Nat)
    (index : VectorIndex) : IndexSummary :=
  let data : IndexSummary :=
    { id := index.id, name := index.name,
      is_valid_dimension := check_valid_dimension index.id knowledge_id,
      is_valid_state := none }
  if get_index_state data.id != "CUSTOM" then { data with is_valid_state := some true }
  else data

/-- Handler of `GET /get/marketplace/valid_indices/{knowledge_id}`
(vector_db_index source lines 13-38).  The four model/helper calls
(`Vectordb.get_vector_db_organisation`,
`VectorIndexCollection.get_vector_index_organisation`,
`KnowledgeHelper.check_valid_dimension`,
`VectorIndexConfig.get_index_state`) live outside the provided sources and
are taken as parameters, so the theorems below hold for every behaviour of
those collaborators.  The nested loops append each summary to exactly one
of the two lists according to the owning Vectordb's `db_type`. -/
def get_marketplace_valid_indices
    (get_vector_db_organisation : Organisation → List Vectordb)
    (get_vector_index_organisation : Nat → List VectorIndex)
    (check_valid_dimension : Nat → Nat → Bool)
    (get_index_state : Nat → String)
    (knowledge_id : Nat) (organisation : Organisation) : VectorIndicesData :=
  let vector_dbs := get_vector_db_organisation organisation
  let acc := vector_dbs.foldl (fun acc vector =>
    let indices := get_vector_index_organisation vector.id
    indices.foldl (fun acc index =>
      let data := build_index_data check_valid_dimension get_index_state knowledge_id index
      if vector.db_type == "PINECONE" then (acc.1 ++ [data], acc.2)
      else (acc.1, acc.2 ++ [data])) acc) (([], []) : List IndexSummary × List IndexSummary)
  { pinecone := acc.1, qdrant := acc.2 }

/-! Specification-side helpers used to state the claims about the
reconciliation handlers. -/

/-- Keys of an input list of (key, value) pairs. -/
def keysOf (K : List (String × Option String)) : List String :=
  K.map Prod.fst

/-- Value of the last occurrence of key `k` in `K` (meaningful when `k`
occurs in `K`). -/
def lastValOf : List (String × Option String) → String → Option String
  | [], _ => none
  | (k1, v) :: K, k => if k1 == k && !(keysOf K).contains k then v else lastValOf K k

/-- Number of config rows matching (tool_kit_id, key). -/
def countKey (rows : List ToolConfig) (tkid : Nat) (k : String) : Nat :=
  (rows.filter (fun r => matchesRow r tkid k)).length

/-- Data-model invariant of the spec: at most one ToolConfig row per
(tool_kit_id, key) pair. -/
def toolConfigInvariant (rows : List ToolConfig) : Prop :=
  ∀ tkid k, countKey rows tkid k ≤ 1

/-- Whether some config row matches (tool_kit_id, key). -/
def containsKey (rows : List ToolConfig) (tkid : Nat) (k : String) : Bool :=
  rows.any (fun r => matchesRow r tkid k)

/-- The upsert loop restricted to well-formed (key, value) pairs. -/
def upsertAll (rows : List ToolConfig) (tkid : Nat)
    (K : List (String × Option String)) : List ToolConfig :=
  K.foldl (fun rows p => upsertRow rows tkid p.1 p.2) rows

/-- Package a list of (key, value) pairs as well-formed handler input. -/
def mkEntries (K : List (String × Option String)) : List UpsertEntry :=
  K.map (fun p => UpsertEntry.entry p.1 p.2)

/-- Extract the (key, value) pairs of handler input when every element is
well formed; `none` when some element is malformed. -/
def fromEntries : List UpsertEntry → Option (List (String × Option String))
  | [] => some []
  | .entry k v :: es => (fromEntries es).map (fun K => (k, v) :: K)
  | .malformed :: _ => none

/-! Basic lemmas about `matchesRow`, `updFirst` and `upsertRow`. -/

theorem matchesRow_iff (r : ToolConfig) (tkid : Nat) (k : String) :
    matchesRow r tkid k = true ↔ r.tool_kit_id = tkid ∧ r.key = k := by
  simp [matchesRow]

/-- `upsertRow` leaves the rows of every other (toolkit, key) pair alone. -/
theorem filter_upsertRow_other (rows : List ToolConfig) (tkid : Nat) (k : String)
    (v : Option String) (tkid' : Nat) (k' : String)
    (h : ¬(tkid' = tkid ∧ k' = k)) :
    (upsertRow rows tkid k v).filter (fun r => matchesRow r tkid' k')
      = rows.filter (fun r => matchesRow r tkid' k') := by
  induction rows with
  | nil =>
    have hm : ¬(matchesRow (⟨tkid, k, v⟩ : ToolConfig) tkid' k' = true) := by
      intro hx
      rcases (matchesRow_iff _ _ _).mp hx with ⟨h1, h2⟩
      exact h ⟨h1.symm, h2.symm⟩
    simp [upsertRow, List.filter_cons, hm]
  | cons r rs ih =>
    by_cases hr : matchesRow r tkid k = true
    · have hr' : matchesRow ({ r with value := v } : ToolConfig) tkid' k'
          = matchesRow r tkid' k' := by
        simp [matchesRow]
      have hm : ¬(matchesRow r tkid' k' = true) := by
        intro hx
        rcases (matchesRow_iff _ _ _).mp hx with ⟨b1, b2⟩
        rcases (matchesRow_iff _ _ _).mp hr with ⟨a1, a2⟩
        exact h ⟨by rw [← b1, a1], by rw [← b2, a2]⟩
      simp [upsertRow, hr, List.filter_cons, hr', hm]
    · by_cases hm : matchesRow r tkid' k' = true
      · simp [upsertRow, hr, List.filter_cons, hm, ih]
      · simp [upsertRow, hr, List.filter_cons, hm, ih]

/-- Under the uniqueness invariant, `upsertRow` leaves exactly one matching
row, holding the new value. -/
theorem filter_upsertRow_same (rows : List ToolConfig) (tkid : Nat) (k : String)
    (v : Option String) (hcnt : countKey rows tkid k ≤ 1) :
    (upsertRow rows tkid k v).filter (fun r => matchesRow r tkid k)
      = [⟨tkid, k, v⟩] := by
  induction rows with
  | nil => simp [upsertRow, List.filter_cons, matchesRow]
  | cons r rs ih =>
    by_cases hr : matchesRow r tkid k = true
    · rcases (matchesRow_iff _ _ _).mp hr with ⟨a1, a2⟩
      have hrs : rs.filter (fun x => matchesRow x tkid k) = [] := by
        have hc : countKey (r :: rs) tkid k
            = (rs.filter (fun x => matchesRow x tkid k)).length + 1 := by
          simp [countKey, List.filter_cons, hr]
        cases hfil : rs.filter (fun x => matchesRow x tkid k) with
        | nil => rfl
        | cons a l => rw [hc, hfil] at hcnt; simp at hcnt
      have hhead : ({ r with value := v } : ToolConfig) = ⟨tkid, k, v⟩ := by
        cases r; simp_all
      have hm : matchesRow (⟨tkid, k, v⟩ : ToolConfig) tkid k = true := by
        simp [matchesRow]
      simp [upsertRow, hr, List.filter_cons, hhead, hm, hrs]
    · have hc : countKey (r :: rs) tkid k = countKey rs tkid k := by
        simp [countKey, List.filter_cons, hr]
      have hcnt' : countKey rs tkid k ≤ 1 := hc ▸ hcnt
      simp [upsertRow, hr, List.filter_cons, ih hcnt']

/-- Unfolding lemma for the upsert loop: empty input. -/
theorem upsertAll_nil (rows : List ToolConfig) (tkid : Nat) :
    upsertAll rows tkid [] = rows := rfl

/-- Unfolding lemma for the upsert loop: one step. -/
theorem upsertAll_cons (rows : List ToolConfig) (tkid : Nat)
    (p : String × Option String) (K : List (String × Option String)) :
    upsertAll rows tkid (p :: K) = upsertAll (upsertRow rows tkid p.1 p.2) tkid K := rfl

/-- One upsert step preserves the uniqueness invariant. -/
theorem toolConfigInvariant_upsertRow (rows : List ToolConfig) (tkid : Nat)
    (k : String) (v : Option String) (hinv : toolConfigInvariant rows) :
    toolConfigInvariant (upsertRow rows tkid k v) := by
  intro tkid' k'
  by_cases hsame : tkid' = tkid ∧ k' = k
  · rcases hsame with ⟨rfl, rfl⟩
    rw [countKey, filter_upsertRow_same rows tkid' k' v (hinv tkid' k')]
    simp
  · rw [countKey, filter_upsertRow_other rows tkid k v tkid' k' hsame]
    exact hinv tkid' k'

/-- The whole upsert loop preserves the uniqueness invariant. -/
theorem toolConfigInvariant_upsertAll (K : List (String × Option String))
    (rows : List ToolConfig) (tkid : Nat) (hinv : toolConfigInvariant rows) :
    toolConfigInvariant (upsertAll rows tkid K) := by
  induction K generalizing rows with
  | nil => exact hinv
  | cons p K ih =>
    rw [upsertAll_cons]
    exact ih _ (toolConfigInvariant_upsertRow rows tkid p.1 p.2 hinv)

/-- The upsert loop leaves the rows of every (toolkit, key) pair outside
the input alone. -/
theorem filter_upsertAll_other (K : List (String × Option String))
    (rows : List ToolConfig) (tkid : Nat) (tkid' : Nat) (k' : String)
    (h : tkid' ≠ tkid ∨ k' ∉ keysOf K) :
    (upsertAll rows tkid K).filter (fun r => matchesRow r tkid' k')
      = rows.filter (fun r => matchesRow r tkid' k') := by
  induction K generalizing rows with
  | nil => rfl
  | cons p K ih =>
    have hK : tkid' ≠ tkid ∨ k' ∉ keysOf K := by
      rcases h with h | h
      · exact Or.inl h
      · refine Or.inr (fun hx => h ?_)
        simp only [keysOf, List.map_cons, List.mem_cons]
        exact Or.inr hx
    have hother : ¬(tkid' = tkid ∧ k' = p.1) := by
      rintro ⟨rfl, rfl⟩
      rcases h with h | h
      · exact h rfl
      · exact h (by simp [keysOf])
    rw [upsertAll_cons, ih _ hK, filter_upsertRow_other _ _ _ _ _ _ hother]

/-- For a key of the input, the upsert loop ends with exactly one matching
row, holding the value of the key's last occurrence. -/
theorem filter_upsertAll_mem (K : List (String × Option String))
    (rows : List ToolConfig) (tkid : Nat) (k : String)
    (hinv : toolConfigInvariant rows) (hk : k ∈ keysOf K) :
    (upsertAll rows tkid K).filter (fun r => matchesRow r tkid k)
      = [⟨tkid, k, lastValOf K k⟩] := by
  induction K generalizing rows with
  | nil => simp [keysOf] at hk
  | cons p K ih =>
    obtain ⟨k1, v1⟩ := p
    rw [show upsertAll rows tkid ((k1, v1) :: K)
        = upsertAll (upsertRow rows tkid k1 v1) tkid K from rfl]
    by_cases hmem : k ∈ keysOf K
    · have hlast : lastValOf ((k1, v1) :: K) k = lastValOf K k := by
        have hcont : (keysOf K).contains k = true := by simpa using hmem
        simp only [lastValOf, hcont, Bool.not_true, Bool.and_false]
        simp
      rw [hlast]
      exact ih _ (toolConfigInvariant_upsertRow rows tkid k1 v1 hinv) hmem
    · have hk1 : k1 = k := by
        simp only [keysOf, List.map_cons, List.mem_cons] at hk
        rcases hk with h | h
        · exact h.symm
        · exact absurd h hmem
      have hcont : (keysOf K).contains k = false := by
        rcases Bool.eq_false_or_eq_true ((keysOf K).contains k) with hx | hx
        · exact absurd (by simpa using hx) hmem
        · exact hx
      have hcond : (k1 == k && !(keysOf K).contains k) = true := by
        rw [hcont, hk1]; simp
      have hlast : lastValOf ((k1, v1) :: K) k = v1 := by
        simp only [lastValOf, hcond]
        simp
      rw [hlast, filter_upsertAll_other K _ tkid tkid k (Or.inr hmem), hk1,
        filter_upsertRow_same rows tkid k v1 (hinv tkid k)]

/-- A key is matched exactly when the filtered row list is nonempty. -/
theorem containsKey_iff (rows : List ToolConfig) (tkid : Nat) (k : String) :
    containsKey rows tkid k = true
      ↔ rows.filter (fun r => matchesRow r tkid k) ≠ [] := by
  constructor
  · intro h hf
    rcases List.any_eq_true.mp (by simpa [containsKey] using h) with ⟨x, hx, hmx⟩
    have hxf : x ∈ rows.filter (fun r => matchesRow r tkid k) :=
      List.mem_filter.mpr ⟨hx, hmx⟩
    rw [hf] at hxf
    simp at hxf
  · intro h
    cases hf : rows.filter (fun r => matchesRow r tkid k) with
    | nil => exact absurd hf h
    | cons x l =>
      have hx : x ∈ rows.filter (fun r => matchesRow r tkid k) := by rw [hf]; simp
      rw [List.mem_filter] at hx
      show (rows.any fun r => matchesRow r tkid k) = true
      exact List.any_eq_true.mpr ⟨x, hx.1, hx.2⟩

/-- After an upsert step its own key is always matched. -/
theorem containsKey_upsertRow_self (rows : List ToolConfig) (tkid : Nat)
    (k : String) (v : Option String) :
    containsKey (upsertRow rows tkid k v) tkid k = true := by
  induction rows with
  | nil => simp [upsertRow, containsKey, matchesRow]
  | cons r rs ih =>
    by_cases hr : matchesRow r tkid k = true
    · have hm : matchesRow ({ r with value := v } : ToolConfig) tkid k = true := by
        rcases (matchesRow_iff _ _ _).mp hr with ⟨a1, a2⟩
        simp [matchesRow, a1, a2]
      simp [upsertRow, hr, containsKey, List.any_cons, hm]
    · have ih' : (upsertRow rs tkid k v).any (fun r => matchesRow r tkid k) = true := ih
      simp [upsertRow, hr, containsKey, List.any_cons, ih']

/-- An upsert step never removes a matched key. -/
theorem containsKey_upsertRow (rows : List ToolConfig) (tkid : Nat) (k : String)
    (v : Option String) (tkid' : Nat) (k' : String)
    (h : containsKey rows tkid' k' = true) :
    containsKey (upsertRow rows tkid k v) tkid' k' = true := by
  by_cases hsame : tkid' = tkid ∧ k' = k
  · rcases hsame with ⟨rfl, rfl⟩
    exact containsKey_upsertRow_self rows tkid' k' v
  · rw [containsKey_iff] at h ⊢
    rw [filter_upsertRow_other rows tkid k v tkid' k' hsame]
    exact h

/-- Under the uniqueness invariant, an upsert step on an already-present
key is the pointwise update of the matching row. -/
theorem upsertRow_eq_map (rows : List ToolConfig) (tkid : Nat) (k : String)
    (v : Option String) (hcnt : countKey rows tkid k ≤ 1)
    (hcon : containsKey rows tkid k = true) :
    upsertRow rows tkid k v
      = rows.map (fun r => if matchesRow r tkid k then { r with value := v } else r) := by
  induction rows with
  | nil => simp [containsKey] at hcon
  | cons r rs ih =>
    by_cases hr : matchesRow r tkid k = true
    · have hnomatch : ∀ x ∈ rs, ¬(matchesRow x tkid k = true) := by
        intro x hx hmx
        have hxf : x ∈ rs.filter (fun y => matchesRow y tkid k) :=
          List.mem_filter.mpr ⟨hx, hmx⟩
        have h1 : 0 < (rs.filter (fun y => matchesRow y tkid k)).length :=
          List.length_pos_of_mem hxf
        have hc : countKey (r :: rs) tkid k
            = (rs.filter (fun y => matchesRow y tkid k)).length + 1 := by
          simp [countKey, List.filter_cons, hr]
        omega
      have hmap : rs.map (fun x => if matchesRow x tkid k then { x with value := v } else x)
          = rs := by
        have hpt : ∀ x ∈ rs,
            (if matchesRow x tkid k then ({ x with value := v } : ToolConfig) else x) = x := by
          intro x hx
          rw [if_neg (hnomatch x hx)]
        rw [List.map_congr_left hpt]
        simp
      simp [upsertRow, hr, List.map_cons, hmap]
    · have hc : countKey (r :: rs) tkid k = countKey rs tkid k := by
        simp [countKey, List.filter_cons, hr]
      have hcon2 : ∃ x, x ∈ r :: rs ∧ matchesRow x tkid k = true :=
        List.any_eq_true.mp (by simpa [containsKey] using hcon)
      have hcon' : containsKey rs tkid k = true := by
        rcases hcon2 with ⟨x, hx, hmx⟩
        rcases List.mem_cons.mp hx with rfl | hx'
        · exact absurd hmx hr
        · show (rs.any fun r => matchesRow r tkid k) = true
          exact List.any_eq_true.mpr ⟨x, hx', hmx⟩
      simp [upsertRow, hr, List.map_cons, ih (hc ▸ hcnt) hcon']

/-- Pointwise-identity maps are the identity. -/
theorem map_pointwise_id {α : Type} (l : List α) (f : α → α)
    (h : ∀ a ∈ l, f a = a) : l.map f = l := by
  rw [List.map_congr_left h]
  simp

/-- Closed form of the upsert loop when every input key is already
present: every matching row gets the last value of its key. -/
def setVals (K : List (String × Option String)) (tkid : Nat)
    (rows : List ToolConfig) : List ToolConfig :=
  rows.map (fun r =>
    if r.tool_kit_id == tkid && (keysOf K).contains r.key
    then { r with value := lastValOf K r.key } else r)

/-- Under the uniqueness invariant, when every input key is already
present the upsert loop equals its closed form `setVals` (in particular it
appends nothing). -/
theorem upsertAll_eq_setVals (K : List (String × Option String))
    (rows : List ToolConfig) (tkid : Nat)
    (hinv : toolConfigInvariant rows)
    (hcon : ∀ k ∈ keysOf K, containsKey rows tkid k = true) :
    upsertAll rows tkid K = setVals K tkid rows := by
  induction K generalizing rows with
  | nil =>
    rw [upsertAll_nil, setVals]
    symm
    apply map_pointwise_id
    intro r hr
    simp [keysOf]
  | cons p K ih =>
    obtain ⟨k1, v1⟩ := p
    rw [show upsertAll rows tkid ((k1, v1) :: K)
        = upsertAll (upsertRow rows tkid k1 v1) tkid K from rfl]
    have hcon1 : containsKey rows tkid k1 = true := hcon k1 (by simp [keysOf])
    have hinv' : toolConfigInvariant (upsertRow rows tkid k1 v1) :=
      toolConfigInvariant_upsertRow rows tkid k1 v1 hinv
    have hcon' : ∀ k ∈ keysOf K, containsKey (upsertRow rows tkid k1 v1) tkid k = true := by
      intro k hk
      refine containsKey_upsertRow rows tkid k1 v1 tkid k (hcon k ?_)
      simp only [keysOf, List.map_cons, List.mem_cons]
      simp only [keysOf] at hk
      exact Or.inr hk
    rw [ih _ hinv' hcon', upsertRow_eq_map rows tkid k1 v1 (hinv tkid k1) hcon1,
      setVals, setVals, List.map_map]
    apply List.map_congr_left
    intro r hr
    simp only [Function.comp]
    by_cases htk : r.tool_kit_id = tkid
    · by_cases hkey : r.key = k1
      · subst hkey
        have h1 : matchesRow r tkid r.key = true := by simp [matchesRow, htk]
        by_cases h2 : r.key ∈ keysOf K
        · have hcont : (keysOf K).contains r.key = true := by simpa using h2
          have hlast : lastValOf ((r.key, v1) :: K) r.key = lastValOf K r.key := by
            simp only [lastValOf, hcont, Bool.not_true, Bool.and_false]
            simp
          simp [h1, htk, hcont, hlast, keysOf]
          intro hnone
          exfalso
          simp only [keysOf, List.mem_map] at h2
          rcases h2 with ⟨p, hp, hfst⟩
          have hpe : (r.key, p.2) = p := by
            rcases p with ⟨a, b⟩
            simp_all
          exact hnone p.2 (by rw [hpe]; exact hp)
        · have hcont : (keysOf K).contains r.key = false := by
            rcases Bool.eq_false_or_eq_true ((keysOf K).contains r.key) with hx | hx
            · exact absurd (by simpa using hx) h2
            · exact hx
          have hlast : lastValOf ((r.key, v1) :: K) r.key = v1 := by
            have hcond : (r.key == r.key && !(keysOf K).contains r.key) = true := by
              rw [hcont]
              simp
            simp only [lastValOf, hcond]
            simp
          simp [h1, htk, hcont, hlast, keysOf]
          intro x hx
          exact absurd (show r.key ∈ keysOf K from List.mem_map.mpr ⟨(r.key, x), hx, rfl⟩) h2
      · have h1 : matchesRow r tkid k1 = false := by
          rcases Bool.eq_false_or_eq_true (matchesRow r tkid k1) with hx | hx
          · exact absurd ((matchesRow_iff _ _ _).mp hx).2 hkey
          · exact hx
        have hn1 : ¬(matchesRow r tkid k1 = true) := by simp [h1]
        rw [if_neg hn1]
        have hcc : (keysOf ((k1, v1) :: K)).contains r.key = (keysOf K).contains r.key := by
          simp [keysOf, List.contains_cons, hkey]
        by_cases h2 : r.key ∈ keysOf K
        · have hcont : (keysOf K).contains r.key = true := by simpa using h2
          have hlast : lastValOf ((k1, v1) :: K) r.key = lastValOf K r.key := by
            simp only [lastValOf, hcont, Bool.not_true, Bool.and_false]
            simp
          rw [hcc, hlast]
        · have hcontm : (keysOf K).contains r.key = false := by
            rcases Bool.eq_false_or_eq_true ((keysOf K).contains r.key) with hx | hx
            · exact absurd (by simpa using hx) h2
            · exact hx
          have hnc : ¬((r.tool_kit_id == tkid && (keysOf K).contains r.key) = true) := by
            simp [hcontm]
            exact fun _ => h2
          rw [hcc, if_neg hnc, if_neg hnc]
    · have h1 : matchesRow r tkid k1 = false := by
        rcases Bool.eq_false_or_eq_true (matchesRow r tkid k1) with hx | hx
        · exact absurd ((matchesRow_iff _ _ _).mp hx).1 htk
        · exact hx
      have hn1 : ¬(matchesRow r tkid k1 = true) := by simp [h1]
      have hbt : (r.tool_kit_id == tkid) = false := by
        rcases Bool.eq_false_or_eq_true (r.tool_kit_id == tkid) with hx | hx
        · exact absurd (by simpa using hx) htk
        · exact hx
      have hnc1 : ¬((r.tool_kit_id == tkid && (keysOf K).contains r.key) = true) := by
        simp [hbt]
      have hnc2 : ¬((r.tool_kit_id == tkid
          && (keysOf ((k1, v1) :: K)).contains r.key) = true) := by
        simp [hbt]
      rw [if_neg hn1, if_neg hnc1, if_neg hnc2]

/-- Running the upsert loop a second time with the same input changes
nothing. -/
theorem upsertAll_idem (K : List (String × Option String)) (rows : List ToolConfig)
    (tkid : Nat) (hinv : toolConfigInvariant rows) :
    upsertAll (upsertAll rows tkid K) tkid K = upsertAll rows tkid K := by
  have hinv1 : toolConfigInvariant (upsertAll rows tkid K) :=
    toolConfigInvariant_upsertAll K rows tkid hinv
  have hcon1 : ∀ k ∈ keysOf K, containsKey (upsertAll rows tkid K) tkid k = true := by
    intro k hk
    rw [containsKey_iff, filter_upsertAll_mem K rows tkid k hinv hk]
    simp
  rw [upsertAll_eq_setVals K _ tkid hinv1 hcon1, setVals]
  apply map_pointwise_id
  intro r hr
  by_cases hc : (r.tool_kit_id == tkid && (keysOf K).contains r.key) = true
  · have hc2 : r.tool_kit_id = tkid ∧ r.key ∈ keysOf K := by simpa using hc
    have htk' : r.tool_kit_id = tkid := hc2.1
    have hkc' : r.key ∈ keysOf K := hc2.2
    have hrf : r ∈ (upsertAll rows tkid K).filter (fun x => matchesRow x tkid r.key) :=
      List.mem_filter.mpr ⟨hr, by simp [matchesRow, htk']⟩
    rw [filter_upsertAll_mem K rows tkid r.key hinv hkc'] at hrf
    have hreq : r = ⟨tkid, r.key, lastValOf K r.key⟩ := by simpa using hrf
    have hv : r.value = lastValOf K r.key := congrArg ToolConfig.value hreq
    rw [if_pos hc]
    cases r
    simp_all
  · rw [if_neg hc]

/-- The handler loop on well-formed input is the pure upsert fold. -/
theorem upsertLoop_mkEntries (K : List (String × Option String))
    (rows : List ToolConfig) (tkid : Nat) :
    upsertLoop rows tkid (mkEntries K) = .ok (upsertAll rows tkid K) := by
  induction K generalizing rows with
  | nil => rfl
  | cons p K ih =>
    obtain ⟨k, v⟩ := p
    exact ih (upsertRow rows tkid k v)

/-- The handler loop raises before the commit when some element is
malformed. -/
theorem upsertLoop_error (entries : List UpsertEntry) (rows : List ToolConfig)
    (tkid : Nat) (h : fromEntries entries = none) :
    ∃ e, upsertLoop rows tkid entries = .error e := by
  induction entries generalizing rows with
  | nil => simp [fromEntries] at h
  | cons x es ih =>
    cases x with
    | malformed => exact ⟨.attributeError "key", rfl⟩
    | entry k v =>
      have h' : fromEntries es = none := by
        cases hf : fromEntries es with
        | none => rfl
        | some K => simp [fromEntries, hf] at h
      exact ih (upsertRow rows tkid k v) h'

/-- The handler loop on fully well-formed input succeeds with the pure
upsert fold of the extracted pairs. -/
theorem upsertLoop_ok (entries : List UpsertEntry) (rows : List ToolConfig)
    (tkid : Nat) (K : List (String × Option String))
    (h : fromEntries entries = some K) :
    upsertLoop rows tkid entries = .ok (upsertAll rows tkid K) := by
  induction entries generalizing rows K with
  | nil =>
    simp [fromEntries] at h
    subst h
    rfl
  | cons x es ih =>
    cases x with
    | malformed => simp [fromEntries] at h
    | entry k v =>
      cases hf : fromEntries es with
      | none => simp [fromEntries, hf] at h
      | some K' =>
        have hK : K = (k, v) :: K' := by
          simp [fromEntries, hf] at h
          exact h.symm
        subst hK
        exact ih (upsertRow rows tkid k v) K' hf

/-- `updFirst` changes no row's (toolkit, key) identity. -/
theorem map_key_updFirst (rows : List ToolConfig) (tkid : Nat) (k : String)
    (v : Option String) :
    (updFirst rows tkid k v).map (fun r => (r.tool_kit_id, r.key))
      = rows.map (fun r => (r.tool_kit_id, r.key)) := by
  induction rows with
  | nil => rfl
  | cons r rs ih =>
    by_cases hr : matchesRow r tkid k = true
    · simp [updFirst, hr]
    · simp [updFirst, hr, ih]

/-- The whole update-only loop changes no row's (toolkit, key) identity. -/
theorem map_key_updFold (configs : List UpdateEntry) (rows : List ToolConfig)
    (tkid : Nat) :
    ((configs.foldl (fun rows config =>
        match config.key with
        | none => rows
        | some k => updFirst rows tkid k config.value) rows).map
      (fun r => (r.tool_kit_id, r.key)))
      = rows.map (fun r => (r.tool_kit_id, r.key)) := by
  induction configs generalizing rows with
  | nil => rfl
  | cons c cs ih =>
    cases hc : c.key with
    | none => simp [List.foldl_cons, hc, ih]
    | some k => simp [List.foldl_cons, hc, ih, map_key_updFirst]

/-- Concrete store used by the witnesses: one toolkit of organisation 1
named "web-search" with no configs yet. -/
def sampleStore : Store :=
  { toolkits := [⟨1, "web-search", 1⟩], tool_configs := [] }

/-- Concrete store with one existing config row. -/
def sampleStore2 : Store :=
  { toolkits := [⟨1, "web-search", 1⟩], tool_configs := [⟨1, "api_key", some "A"⟩] }

/-- Claim C1: after a successful full upsert (POST /create-or-update) with
entry list K on an existing toolkit, assuming the documented at-most-one
row per (tool_kit_id, key) invariant beforehand, the store holds exactly
one config row per unique key of K carrying the value of that key's last
occurrence in K, every row of a (toolkit, key) pair outside K is left
exactly as it was, and the invariant still holds. -/
theorem claim_C1 (s : Store) (tool_kit_name : String)
    (K : List (String × Option String)) (tk : ToolKit)
    (hinv : toolConfigInvariant s.tool_configs)
    (htk : find_toolkit_by_name s tool_kit_name = some tk) :
    (∀ k, k ∈ keysOf K →
      ((create_or_update_tool_config s tool_kit_name (mkEntries K)).1.tool_configs.filter
        (fun r => matchesRow r tk.id k)) = [⟨tk.id, k, lastValOf K k⟩]) ∧
    (∀ tkid k, tkid ≠ tk.id ∨ k ∉ keysOf K →
      ((create_or_update_tool_config s tool_kit_name (mkEntries K)).1.tool_configs.filter
        (fun r => matchesRow r tkid k))
        = s.tool_configs.filter (fun r => matchesRow r tkid k)) ∧
    toolConfigInvariant
      (create_or_update_tool_config s tool_kit_name (mkEntries K)).1.tool_configs := by
  have hrun : create_or_update_tool_config s tool_kit_name (mkEntries K)
      = ({ s with tool_configs := upsertAll s.tool_configs tk.id K }, .ok 201 tk) := by
    simp [create_or_update_tool_config, htk, upsertLoop_mkEntries]
  rw [hrun]
  refine ⟨?_, ?_, ?_⟩
  · intro k hk
    exact filter_upsertAll_mem K s.tool_configs tk.id k hinv hk
  · intro tkid k h
    exact filter_upsertAll_other K s.tool_configs tk.id tkid k h
  · exact toolConfigInvariant_upsertAll K s.tool_configs tk.id hinv

/-- Concrete instantiation of C1 on the spec scenario: toolkit
"web-search" with no configs, input setting "api_key" to "A" and then to
"B" — afterwards the only row for that key holds "B". -/
theorem claim_C1_witness :
    toolConfigInvariant sampleStore.tool_configs ∧
    find_toolkit_by_name sampleStore "web-search" = some ⟨1, "web-search", 1⟩ ∧
    ((∀ k, k ∈ keysOf [("api_key", some "A"), ("api_key", some "B")] →
      ((create_or_update_tool_config sampleStore "web-search"
          (mkEntries [("api_key", some "A"), ("api_key", some "B")])).1.tool_configs.filter
        (fun r => matchesRow r 1 k))
        = [⟨1, k, lastValOf [("api_key", some "A"), ("api_key", some "B")] k⟩]) ∧
    (∀ tkid k, tkid ≠ 1 ∨ k ∉ keysOf [("api_key", some "A"), ("api_key", some "B")] →
      ((create_or_update_tool_config sampleStore "web-search"
          (mkEntries [("api_key", some "A"), ("api_key", some "B")])).1.tool_configs.filter
        (fun r => matchesRow r tkid k))
        = sampleStore.tool_configs.filter (fun r => matchesRow r tkid k)) ∧
    toolConfigInvariant
      (create_or_update_tool_config sampleStore "web-search"
        (mkEntries [("api_key", some "A"), ("api_key", some "B")])).1.tool_configs) :=
  ⟨fun tkid k => by simp [sampleStore, countKey],
   rfl,
   claim_C1 sampleStore "web-search" [("api_key", some "A"), ("api_key", some "B")]
     ⟨1, "web-search", 1⟩ (fun tkid k => by simp [sampleStore, countKey]) rfl⟩

/-- Claim C2 evaluated at its failing input: with no toolkit named
"missing-kit", POST /add answers HTTP 500 — the HTTPException(404) raised
inside the try block is caught by the blanket except clause and re-raised
as 500 — while the claim (and the handler docstring) promise 404; the
store is unchanged, and the sibling create-or-update endpoint does answer
404. -/
theorem claim_C2 :
    update_tool_config sampleStore2 "missing-kit" [⟨some "api_key", some "B"⟩]
      = (sampleStore2,
         .httpError 500 (strOfExc (.httpException 404 "Tool kit not found"))) ∧
    create_or_update_tool_config sampleStore2 "missing-kit"
        [.entry "api_key" (some "B")]
      = (sampleStore2, .httpError 404 "ToolKit not found") := by
  constructor <;> rfl

/-- Claim C3: POST /add never creates (nor deletes) a config row — the
list of (tool_kit_id, key) identities of the store's rows is exactly the
same before and after the call, for every store, toolkit name and input
list. -/
theorem claim_C3 (s : Store) (tool_kit_name : String) (configs : List UpdateEntry) :
    ((update_tool_config s tool_kit_name configs).1.tool_configs.map
      (fun r => (r.tool_kit_id, r.key)))
      = s.tool_configs.map (fun r => (r.tool_kit_id, r.key)) := by
  cases htk : get_tool_kit_from_name s tool_kit_name with
  | none => simp [update_tool_config, update_tool_config_inner, htk]
  | some tk =>
    simp [update_tool_config, update_tool_config_inner, htk, map_key_updFold]

/-- Claim C4 evaluated at its failing input: when the analytics helper
fails, GET /agents/\x7bagent_id\x7d does not produce the promised HTTP
500 response — its bare except clause evaluates str(e) with the name e
unbound, so a NameError escapes the handler unhandled. -/
theorem claim_C4 (α : Type) (agent_id : Nat) (e : PyExc) :
    get_agent_runs agent_id (Except.error e : Except PyExc α)
      = Outcome.raised (.nameError "e") := rfl

/-- Claim C5 evaluated as a universal counterexample: GET
/get/toolkit/.../key/... answers 403 Unauthorized for every store,
organisation, toolkit name and key — also when the organisation owns the
toolkit and the key exists — because the variable `toolkit` holds an
unexecuted Query object (the source omits .first()) that never equals any
row of the ownership list. -/
theorem claim_C5 (s : Store) (organisation : Organisation) (toolkit key : String) :
    get_tool_config s organisation toolkit key = .httpError 403 "Unauthorized" := by
  simp [get_tool_config, toolkitVarEqRow]

/-- Specification-side description of the aggregator output: the summaries
of all indices of the given vector databases, in enumeration order. -/
def summariesOf (gvio : Nat → List VectorIndex) (cvd : Nat → Nat → Bool)
    (gis : Nat → String) (kid : Nat) : List Vectordb → List IndexSummary
  | [] => []
  | v :: vs =>
    (gvio v.id).map (build_index_data cvd gis kid) ++ summariesOf gvio cvd gis kid vs

/-- The inner per-index loop appends all summaries of one database to the
group selected by the (index-independent) technology test. -/
theorem inner_fold_eq (f : VectorIndex → IndexSummary) (indices : List VectorIndex)
    (acc : List IndexSummary × List IndexSummary) (isP : Bool) :
    indices.foldl (fun acc index =>
        if isP = true then (acc.1 ++ [f index], acc.2)
        else (acc.1, acc.2 ++ [f index])) acc
      = if isP = true then (acc.1 ++ indices.map f, acc.2)
        else (acc.1, acc.2 ++ indices.map f) := by
  induction indices generalizing acc with
  | nil => cases isP <;> simp
  | cons i is ih =>
    rw [List.foldl_cons, ih]
    cases isP <;> simp

/-- The outer loop of the aggregator splits the summaries between the two
groups according to each database's `db_type`. -/
theorem marketplace_fold_eq (gvio : Nat → List VectorIndex)
    (cvd : Nat → Nat → Bool) (gis : Nat → String) (kid : Nat)
    (dbs : List Vectordb) (acc : List IndexSummary × List IndexSummary) :
    dbs.foldl (fun acc vector =>
        (gvio vector.id).foldl (fun acc index =>
          if (vector.db_type == "PINECONE") = true
          then (acc.1 ++ [build_index_data cvd gis kid index], acc.2)
          else (acc.1, acc.2 ++ [build_index_data cvd gis kid index])) acc) acc
      = (acc.1 ++ summariesOf gvio cvd gis kid
            (dbs.filter (fun v => v.db_type == "PINECONE")),
         acc.2 ++ summariesOf gvio cvd gis kid
            (dbs.filter (fun v => !(v.db_type == "PINECONE")))) := by
  induction dbs generalizing acc with
  | nil => simp [summariesOf]
  | cons v vs ih =>
    rw [List.foldl_cons, inner_fold_eq]
    by_cases hp : (v.db_type == "PINECONE") = true
    · rw [if_pos hp]
      rw [ih]
      have hnp : (!(v.db_type == "PINECONE")) = false := by rw [hp]; rfl
      simp [List.filter_cons, hp, hnp, summariesOf]
    · have hp' : (v.db_type == "PINECONE") = false := by
        rcases Bool.eq_false_or_eq_true (v.db_type == "PINECONE") with hx | hx
        · exact absurd hx hp
        · exact hx
      rw [if_neg hp]
      rw [ih]
      have hnp : (!(v.db_type == "PINECONE")) = true := by rw [hp']; rfl
      simp [List.filter_cons, hp', hnp, summariesOf]

/-- The aggregator's two output groups are exactly the summaries of the
PINECONE databases and of all remaining databases, in order. -/
theorem get_marketplace_valid_indices_eq (gvdo : Organisation → List Vectordb)
    (gvio : Nat → List VectorIndex) (cvd : Nat → Nat → Bool)
    (gis : Nat → String) (kid : Nat) (org : Organisation) :
    get_marketplace_valid_indices gvdo gvio cvd gis kid org
      = { pinecone := summariesOf gvio cvd gis kid
            ((gvdo org).filter (fun v => v.db_type == "PINECONE")),
          qdrant := summariesOf gvio cvd gis kid
            ((gvdo org).filter (fun v => !(v.db_type == "PINECONE"))) } := by
  show VectorIndicesData.mk _ _ = _
  rw [show ∀ a b c d, VectorIndicesData.mk a b = VectorIndicesData.mk c d ↔ a = c ∧ b = d
      from fun a b c d => by constructor <;> intro h <;> simp_all]
  have h := marketplace_fold_eq gvio cvd gis kid (gvdo org) ([], [])
  constructor
  · have := congrArg Prod.fst h
    simpa using this
  · have := congrArg Prod.snd h
    simpa using this

/-- Total count of summaries is preserved by the binary partition. -/
theorem summariesOf_filter_length (gvio : Nat → List VectorIndex)
    (cvd : Nat → Nat → Bool) (gis : Nat → String) (kid : Nat)
    (dbs : List Vectordb) :
    (summariesOf gvio cvd gis kid (dbs.filter (fun v => v.db_type == "PINECONE"))).length
      + (summariesOf gvio cvd gis kid
          (dbs.filter (fun v => !(v.db_type == "PINECONE")))).length
      = (summariesOf gvio cvd gis kid dbs).length := by
  induction dbs with
  | nil => rfl
  | cons v vs ih =>
    by_cases hp : (v.db_type == "PINECONE") = true
    · have hnp : (!(v.db_type == "PINECONE")) = false := by rw [hp]; rfl
      simp [List.filter_cons, hp, hnp, summariesOf, List.length_append]
      omega
    · have hp' : (v.db_type == "PINECONE") = false := by
        rcases Bool.eq_false_or_eq_true (v.db_type == "PINECONE") with hx | hx
        · exact absurd hx hp
        · exact hx
      have hnp : (!(v.db_type == "PINECONE")) = true := by rw [hp']; rfl
      simp [List.filter_cons, hp', hnp, summariesOf, List.length_append]
      omega

/-- Field content of one summary: the id is the index's id, and
`is_valid_state` is present (with value true) exactly when the stored
state is not "CUSTOM". -/
theorem build_index_data_spec (cvd : Nat → Nat → Bool) (gis : Nat → String)
    (kid : Nat) (index : VectorIndex) :
    (build_index_data cvd gis kid index).id = index.id ∧
    (build_index_data cvd gis kid index).is_valid_state
      = (if gis index.id = "CUSTOM" then none else some true) := by
  by_cases h : gis index.id = "CUSTOM"
  · have hb : (gis index.id != "CUSTOM") = false := by simp [h]
    simp [build_index_data, hb, h]
  · have hb : (gis index.id != "CUSTOM") = true := by simp [h]
    simp [build_index_data, hb, h]

/-- Every member of a summary list is the summary of some index. -/
theorem mem_summariesOf (gvio : Nat → List VectorIndex) (cvd : Nat → Nat → Bool)
    (gis : Nat → String) (kid : Nat) (dbs : List Vectordb) (d : IndexSummary)
    (hd : d ∈ summariesOf gvio cvd gis kid dbs) :
    ∃ index : VectorIndex, d = build_index_data cvd gis kid index := by
  induction dbs with
  | nil => simp [summariesOf] at hd
  | cons v vs ih =>
    simp only [summariesOf, List.mem_append] at hd
    rcases hd with hd | hd
    · rcases List.mem_map.mp hd with ⟨i, _, hi⟩
      exact ⟨i, hi.symm⟩
    · exact ih hd

/-- Claim C6: in every summary produced by
GET /get/marketplace/valid_indices/ — whichever output group it lands in,
for every behaviour of the model helpers — the field `is_valid_state`
equals `some true` when the index state differs from "CUSTOM" and is
absent (`none`) when the state is "CUSTOM"; it is never present with
value false. -/
theorem claim_C6 (gvdo : Organisation → List Vectordb)
    (gvio : Nat → List VectorIndex) (cvd : Nat → Nat → Bool)
    (gis : Nat → String) (kid : Nat) (org : Organisation) (d : IndexSummary)
    (hd : d ∈ (get_marketplace_valid_indices gvdo gvio cvd gis kid org).pinecone
        ∨ d ∈ (get_marketplace_valid_indices gvdo gvio cvd gis kid org).qdrant) :
    (gis d.id ≠ "CUSTOM" → d.is_valid_state = some true) ∧
    (gis d.id = "CUSTOM" → d.is_valid_state = none) := by
  rw [get_marketplace_valid_indices_eq] at hd
  have hidx : ∃ index : VectorIndex, d = build_index_data cvd gis kid index := by
    rcases hd with hd | hd
    · exact mem_summariesOf gvio cvd gis kid _ d hd
    · exact mem_summariesOf gvio cvd gis kid _ d hd
  rcases hidx with ⟨i, rfl⟩
  rcases build_index_data_spec cvd gis kid i with ⟨hid, hstate⟩
  rw [hid, hstate]
  constructor
  · intro hne
    rw [if_neg hne]
  · intro heq
    rw [if_pos heq]

/-- Claim C7: for every organisation, knowledge id and helper behaviour,
the aggregator's pinecone group is exactly the summaries of the indices
of the databases whose db_type is "PINECONE", the qdrant group is exactly
the summaries of the indices of all other databases, and together they
carry every summary exactly once (their sizes add up to the total number
of summaries). -/
theorem claim_C7 (gvdo : Organisation → List Vectordb)
    (gvio : Nat → List VectorIndex) (cvd : Nat → Nat → Bool)
    (gis : Nat → String) (kid : Nat) (org : Organisation) :
    (get_marketplace_valid_indices gvdo gvio cvd gis kid org).pinecone
      = summariesOf gvio cvd gis kid
          ((gvdo org).filter (fun v => v.db_type == "PINECONE")) ∧
    (get_marketplace_valid_indices gvdo gvio cvd gis kid org).qdrant
      = summariesOf gvio cvd gis kid
          ((gvdo org).filter (fun v => !(v.db_type == "PINECONE"))) ∧
    (get_marketplace_valid_indices gvdo gvio cvd gis kid org).pinecone.length
        + (get_marketplace_valid_indices gvdo gvio cvd gis kid org).qdrant.length
      = (summariesOf gvio cvd gis kid (gvdo org)).length := by
  rw [get_marketplace_valid_indices_eq]
  exact ⟨rfl, rfl, summariesOf_filter_length gvio cvd gis kid (gvdo org)⟩

/-- Concrete vector databases for the C6 witness: one PINECONE and one
QDRANT database of organisation 10. -/
def c6gvdo : Organisation → List Vectordb :=
  fun _ => [⟨1, 10, "PINECONE"⟩, ⟨2, 10, "QDRANT"⟩]

/-- Concrete index collections for the C6 witness. -/
def c6gvio : Nat → List VectorIndex :=
  fun dbid => if dbid = 1 then [⟨5, "idx-a"⟩] else [⟨6, "idx-b"⟩]

/-- Concrete dimension check for the C6 witness. -/
def c6cvd : Nat → Nat → Bool := fun _ _ => true

/-- Concrete index states for the C6 witness: index 5 is ACTIVE, all
others are CUSTOM. -/
def c6gis : Nat → String := fun i => if i = 5 then "ACTIVE" else "CUSTOM"

/-- Concrete instantiation of C6: the summary of the ACTIVE index 5 lands
in the pinecone group with `is_valid_state = some true`. -/
theorem claim_C6_witness :
    ((⟨5, "idx-a", true, some true⟩ : IndexSummary)
        ∈ (get_marketplace_valid_indices c6gvdo c6gvio c6cvd c6gis 3 ⟨10⟩).pinecone
      ∨ (⟨5, "idx-a", true, some true⟩ : IndexSummary)
        ∈ (get_marketplace_valid_indices c6gvdo c6gvio c6cvd c6gis 3 ⟨10⟩).qdrant) ∧
    ((c6gis (⟨5, "idx-a", true, some true⟩ : IndexSummary).id ≠ "CUSTOM" →
        (⟨5, "idx-a", true, some true⟩ : IndexSummary).is_valid_state = some true) ∧
     (c6gis (⟨5, "idx-a", true, some true⟩ : IndexSummary).id = "CUSTOM" →
        (⟨5, "idx-a", true, some true⟩ : IndexSummary).is_valid_state = none)) :=
  ⟨Or.inl (by decide),
   claim_C6 c6gvdo c6gvio c6cvd c6gis 3 ⟨10⟩ ⟨5, "idx-a", true, some true⟩
     (Or.inl (by decide))⟩

/-- Claim C8: the full upsert is idempotent — under the documented
at-most-one row per (tool_kit_id, key) invariant, running
POST /create-or-update twice with the same entry list leaves the store
(and the response) exactly as running it once. -/
theorem claim_C8 (s : Store) (tool_kit_name : String)
    (K : List (String × Option String))
    (hinv : toolConfigInvariant s.tool_configs) :
    create_or_update_tool_config
        ((create_or_update_tool_config s tool_kit_name (mkEntries K)).1)
        tool_kit_name (mkEntries K)
      = create_or_update_tool_config s tool_kit_name (mkEntries K) := by
  cases htk : find_toolkit_by_name s tool_kit_name with
  | none => simp [create_or_update_tool_config, htk]
  | some tk =>
    have h1 : create_or_update_tool_config s tool_kit_name (mkEntries K)
        = ({ s with tool_configs := upsertAll s.tool_configs tk.id K }, .ok 201 tk) := by
      simp [create_or_update_tool_config, htk, upsertLoop_mkEntries]
    have htk2 : find_toolkit_by_name
        { s with tool_configs := upsertAll s.tool_configs tk.id K } tool_kit_name
        = some tk := htk
    rw [h1]
    simp [create_or_update_tool_config, htk2, upsertLoop_mkEntries,
      upsertAll_idem K s.tool_configs tk.id hinv]

/-- Concrete instantiation of C8: re-running the upsert of "api_key" on
the sample store changes nothing. -/
theorem claim_C8_witness :
    toolConfigInvariant sampleStore2.tool_configs ∧
    create_or_update_tool_config
        ((create_or_update_tool_config sampleStore2 "web-search"
           (mkEntries [("api_key", some "B"), ("base_url", some "u")])).1)
        "web-search" (mkEntries [("api_key", some "B"), ("base_url", some "u")])
      = create_or_update_tool_config sampleStore2 "web-search"
          (mkEntries [("api_key", some "B"), ("base_url", some "u")]) :=
  ⟨fun tkid k => by
      simp only [sampleStore2, countKey, List.filter]
      split <;> simp,
   claim_C8 sampleStore2 "web-search" [("api_key", some "B"), ("base_url", some "u")]
     (fun tkid k => by
       simp only [sampleStore2, countKey, List.filter]
       split <;> simp)⟩

/-- Claim C9: one call to POST /create-or-update is all-or-nothing — either
the call succeeds and the committed store reflects the upsert of every
entry of the input list, or (toolkit missing, or the loop raises partway
through the entries) the commit at the end of the loop is never reached
and the store is exactly what it was before the call. -/
theorem claim_C9 (s : Store) (tool_kit_name : String) (entries : List UpsertEntry) :
    (create_or_update_tool_config s tool_kit_name entries).1 = s ∨
    (∃ tk K, find_toolkit_by_name s tool_kit_name = some tk ∧
      fromEntries entries = some K ∧
      create_or_update_tool_config s tool_kit_name entries
        = ({ s with tool_configs := upsertAll s.tool_configs tk.id K },
           .ok 201 tk)) := by
  cases htk : find_toolkit_by_name s tool_kit_name with
  | none =>
    left
    simp [create_or_update_tool_config, htk]
  | some tk =>
    cases hfe : fromEntries entries with
    | none =>
      left
      rcases upsertLoop_error entries s.tool_configs tk.id hfe with ⟨e, he⟩
      simp [create_or_update_tool_config, htk, he]
    | some K =>
      right
      refine ⟨tk, K, rfl, rfl, ?_⟩
      simp [create_or_update_tool_config, htk,
        upsertLoop_ok entries s.tool_configs tk.id K hfe]

/-- Claim C10: POST /add skips any entry whose "key" is missing (removing
such an entry from the body does not change the call's result at all), and
whenever the toolkit exists the call answers the fixed success message, no
matter how many entries matched. -/
theorem claim_C10 (s : Store) (tool_kit_name : String)
    (cs1 cs2 : List UpdateEntry) (v : Option String) :
    update_tool_config s tool_kit_name (cs1 ++ ⟨none, v⟩ :: cs2)
      = update_tool_config s tool_kit_name (cs1 ++ cs2) ∧
    (∀ tk, get_tool_kit_from_name s tool_kit_name = some tk →
      (update_tool_config s tool_kit_name (cs1 ++ ⟨none, v⟩ :: cs2)).2
        = .ok 201 "Tool configs updated successfully") := by
  cases htk : get_tool_kit_from_name s tool_kit_name with
  | none =>
    constructor
    · simp [update_tool_config, update_tool_config_inner, htk]
    · intro tk h
      simp at h
  | some tk =>
    constructor
    · simp [update_tool_config, update_tool_config_inner, htk, List.foldl_append,
        List.foldl_cons]
    · intro tk2 h
      simp [update_tool_config, update_tool_config_inner, htk]

/-- Concrete instantiation of C10: an entry with no "key" field is ignored
and the fixed message is returned. -/
theorem claim_C10_witness :
    get_tool_kit_from_name sampleStore2 "web-search" = some ⟨1, "web-search", 1⟩ ∧
    (update_tool_config sampleStore2 "web-search"
        ([⟨some "api_key", some "B"⟩] ++ ⟨none, some "x"⟩ :: [⟨none, none⟩])
      = update_tool_config sampleStore2 "web-search"
          ([⟨some "api_key", some "B"⟩] ++ [⟨none, none⟩])) ∧
    (update_tool_config sampleStore2 "web-search"
        ([⟨some "api_key", some "B"⟩] ++ ⟨none, some "x"⟩ :: [⟨none, none⟩])).2
      = .ok 201 "Tool configs updated successfully" :=
  ⟨rfl,
   (claim_C10 sampleStore2 "web-search" [⟨some "api_key", some "B"⟩] [⟨none, none⟩]
     (some "x")).1,
   (claim_C10 sampleStore2 "web-search" [⟨some "api_key", some "B"⟩] [⟨none, none⟩]
     (some "x")).2 ⟨1, "web-search", 1⟩ rfl⟩
